import Mathlib

/-!
Verification of the `i2c-common` message core (`src/msg.rs`).

The Rust module defines a bitflags value type `I2cMsgFlags : u16` and a
struct `I2cMsg` holding an address, a flag word, a raw byte buffer with a
logical length `buf_len : usize`, two `isize` cursors `write_idx` /
`read_idx`, and an `isize` counter `read_cmd_cnt`.

Embedding conventions:
* `u16` flag words and `usize` lengths are `Nat`; the `isize` fields are
  `Int`.  The cast `i as usize` that the source applies before every
  comparison is `castUsize` (two's-complement reduction modulo 2^64).
* The memory behind the `*mut u8` buffer pointer is a `List Nat` of bytes;
  `buf.offset(idx)` becomes the list index `idx.toNat` (a negative offset
  would be undefined behaviour in the source and is outside every theorem's
  hypotheses).
* `panic!("access buf overfllow")` is the `Except.error` branch, carrying
  the program state at the moment of the panic.
* `debug_assert!` is compiled out in release builds and is therefore not a
  branch of the translated functions; the one place where debug and release
  builds genuinely diverge in a value-producing way — the `usize`
  subtraction `self.buf_len - 1` in `left_last` — is modelled twice:
  `left_last` (release, wrapping subtraction) and `left_last_dbg` (debug,
  `none` on underflow panic).
-/

namespace I2cCommon

/-- 2^64: the modulus of the 64-bit `usize` / `isize` machine words. -/
def USIZE_MOD : Nat := 18446744073709551616

/-- The Rust cast `i as usize` applied to an `isize` value: two's-complement
reinterpretation, i.e. reduction of the signed value modulo 2^64. -/
def castUsize (i : Int) : Nat := (i % (USIZE_MOD : Int)).toNat

/-- Release-mode (wrapping) `usize` subtraction `n - 1`, as evaluated by
`self.buf_len - 1` in `I2cMsg::left_last`. -/
def usizeSub1 (n : Nat) : Nat := (n + (USIZE_MOD - 1)) % USIZE_MOD

namespace I2cMsgFlags

/-- `I2cMasterRead = 0x0001`: read data (from slave to master). -/
def I2cMasterRead : Nat := 0x0001

/-- `I2cClientPec = 0x0004`: use Packet Error Checking. -/
def I2cClientPec : Nat := 0x0004

/-- `I2cAddrTen = 0x0010`: this is a 10 bit chip address. -/
def I2cAddrTen : Nat := 0x0010

/-- `I2cClientSlave = 0x0020`: we are the slave. -/
def I2cClientSlave : Nat := 0x0020

/-- `I2cClientHostNotify = 0x0040`: we want to use I2C host notify. -/
def I2cClientHostNotify : Nat := 0x0040

/-- `I2cClientWake = 0x0080`: for board_info; true if can wake. -/
def I2cClientWake : Nat := 0x0080

/-- `I2cMasterDmaSafe = 0x0200`. -/
def I2cMasterDmaSafe : Nat := 0x0200

/-- `I2cMasterRecvLen = 0x0400`: message length will be first received byte. -/
def I2cMasterRecvLen : Nat := 0x0400

/-- `I2cMasterNoReadAck = 0x0800`: master ACK/NACK bit is skipped. -/
def I2cMasterNoReadAck : Nat := 0x0800

/-- `I2cMasterIgnNak = 0x1000`: treat NACK from client as ACK. -/
def I2cMasterIgnNak : Nat := 0x1000

/-- `I2cMasterRevDir = 0x2000`: toggles the Rd/Wr bit. -/
def I2cMasterRevDir : Nat := 0x2000

/-- `I2cMasterNoStart = 0x4000`: skip repeated start sequence. -/
def I2cMasterNoStart : Nat := 0x4000

/-- `I2cMasterStop = 0x8000`: force a STOP condition after the message. -/
def I2cMasterStop : Nat := 0x8000

/-- Multi-bit flag `I2cClientSccb = I2cMasterStop | I2cMasterIgnNak`. -/
def I2cClientSccb : Nat := I2cMasterStop ||| I2cMasterIgnNak

/-- bitflags `empty()`. -/
def empty : Nat := 0

/-- bitflags `contains`: `(self.bits & other.bits) == other.bits`. -/
def contains (self other : Nat) : Bool := self &&& other == other

/-- bitflags `remove`: `self.bits &= !other.bits`, with `!` the 16-bit
complement of the `u16` flag word. -/
def remove (self other : Nat) : Nat := self &&& (0xFFFF ^^^ other)

end I2cMsgFlags

/-- The `I2cMsg` struct of `src/msg.rs`.  `buf` is the byte memory behind the
`*mut u8` pointer; `buf_len` is the separate logical length field. -/
structure I2cMsg where
  addr : Nat
  flags : Nat
  buf : List Nat
  buf_len : Nat
  write_idx : Int
  read_idx : Int
  read_cmd_cnt : Int
deriving DecidableEq, Repr

namespace I2cMsg

/-- `impl Default for I2cMsg`: address 0, empty flags, null (empty) buffer,
zero length, all cursors and the counter 0. -/
def default : I2cMsg :=
  { addr := 0, flags := I2cMsgFlags.empty, buf := [], buf_len := 0,
    write_idx := 0, read_idx := 0, read_cmd_cnt := 0 }

/-- `I2cMsg::new(addr, flags, buf, buf_len)`. -/
def new (addr flags : Nat) (buf : List Nat) (buf_len : Nat) : I2cMsg :=
  { addr := addr, flags := flags, buf := buf, buf_len := buf_len,
    write_idx := 0, read_idx := 0, read_cmd_cnt := 0 }

/-- `I2cMsg::remove_flag`: `self.flags.remove(flag)`. -/
def remove_flag (m : I2cMsg) (flag : Nat) : I2cMsg :=
  { m with flags := I2cMsgFlags.remove m.flags flag }

/-- `I2cMsg::modify_read_cmd_cnt` (the `debug_assert!`s on
`I2cMasterRecvLen` and `I2cMasterRead` are compiled out in release). -/
def modify_read_cmd_cnt (m : I2cMsg) (read_cmd_cnt : Int) : I2cMsg :=
  { m with read_cmd_cnt := read_cmd_cnt }

/-- `I2cMsg::inc_read_cmd_cnt`: `self.read_cmd_cnt += 1`. -/
def inc_read_cmd_cnt (m : I2cMsg) : I2cMsg :=
  { m with read_cmd_cnt := m.read_cmd_cnt + 1 }

/-- `I2cMsg::left_last`, release build: the `usize` subtraction
`self.buf_len - 1` wraps on underflow. -/
def left_last (m : I2cMsg) : Bool :=
  if I2cMsgFlags.contains m.flags I2cMsgFlags.I2cMasterRead then
    castUsize m.write_idx == usizeSub1 m.buf_len
  else
    castUsize m.read_idx == usizeSub1 m.buf_len

/-- `I2cMsg::left_last`, debug build: the `usize` subtraction
`self.buf_len - 1` panics on underflow (`none`). -/
def left_last_dbg (m : I2cMsg) : Option Bool :=
  if m.buf_len = 0 then none
  else if I2cMsgFlags.contains m.flags I2cMsgFlags.I2cMasterRead then
    some (castUsize m.write_idx == m.buf_len - 1)
  else
    some (castUsize m.read_idx == m.buf_len - 1)

/-- `I2cMsg::read_end`. -/
def read_end (m : I2cMsg) : Bool :=
  if I2cMsgFlags.contains m.flags I2cMsgFlags.I2cMasterRead then
    castUsize m.read_cmd_cnt == m.buf_len
  else
    castUsize m.read_idx == m.buf_len

/-- `I2cMsg::write_end` (its `debug_assert!` on `I2cMasterRead` is compiled
out in release). -/
def write_end (m : I2cMsg) : Bool :=
  castUsize m.write_idx == m.buf_len

/-- `I2cMsg::write_byte`: panic (`error`, carrying the unmodified state) when
`write_end()`, otherwise store at `write_idx` and advance the cursor. -/
def write_byte (m : I2cMsg) (byte : Nat) : Except I2cMsg I2cMsg :=
  if m.write_end then .error m
  else .ok { m with buf := m.buf.set m.write_idx.toNat byte,
                    write_idx := m.write_idx + 1 }

/-- `I2cMsg::read_byte`: panic (`error`, carrying the unmodified state) when
`read_end()`, otherwise return the byte at `read_idx` and advance the
cursor. -/
def read_byte (m : I2cMsg) : Except I2cMsg (Nat × I2cMsg) :=
  if m.read_end then .error m
  else .ok (m.buf.getD m.read_idx.toNat 0, { m with read_idx := m.read_idx + 1 })

/-- `I2cMsg::modify_buf_len` (the `debug_assert!` on `I2cMasterRecvLen` is
compiled out in release). -/
def modify_buf_len (m : I2cMsg) (buf_len : Nat) : I2cMsg :=
  { m with buf_len := buf_len }

/-- Iterated `write_byte` over a list of bytes, stopping at the first panic. -/
def writeAll (m : I2cMsg) (bs : List Nat) : Except I2cMsg I2cMsg :=
  match bs with
  | [] => .ok m
  | b :: rest =>
    match m.write_byte b with
    | .error e => .error e
    | .ok m2 => m2.writeAll rest

/-- Iterated `read_byte`, `n` calls, collecting the returned bytes and
stopping at the first panic. -/
def readN (m : I2cMsg) (n : Nat) : Except I2cMsg (List Nat × I2cMsg) :=
  match n with
  | 0 => .ok ([], m)
  | k + 1 =>
    match m.read_byte with
    | .error e => .error e
    | .ok (b, m2) =>
      match m2.readN k with
      | .error e => .error e
      | .ok (bs, m3) => .ok (b :: bs, m3)

end I2cMsg

/-- The state reached by a `write_byte` call whether it returns or panics. -/
def wbState (r : Except I2cMsg I2cMsg) : I2cMsg :=
  match r with
  | .ok m => m
  | .error m => m

/-- The state reached by a `read_byte` call whether it returns or panics. -/
def rbState (r : Except I2cMsg (Nat × I2cMsg)) : I2cMsg :=
  match r with
  | .ok p => p.2
  | .error m => m

/-- The cursor-bounds invariant of the spec:
`0 ≤ write_idx ≤ buf_len` and `0 ≤ read_idx ≤ buf_len`. -/
def cursorInv (m : I2cMsg) : Prop :=
  0 ≤ m.write_idx ∧ m.write_idx ≤ (m.buf_len : Int) ∧
  0 ≤ m.read_idx ∧ m.read_idx ≤ (m.buf_len : Int)

instance (m : I2cMsg) : Decidable (cursorInv m) := by
  unfold cursorInv
  exact inferInstance

/-- The cursor selected by `I2cMasterRead`: the write cursor on read
messages, the read cursor otherwise. -/
def activeCursor (m : I2cMsg) : Int :=
  if I2cMsgFlags.contains m.flags I2cMsgFlags.I2cMasterRead then m.write_idx
  else m.read_idx

lemma castUsize_int_eq (i : Int) (h0 : 0 ≤ i) (h1 : i < (USIZE_MOD : Int)) :
    (castUsize i : Int) = i := by
  unfold castUsize
  rw [Int.emod_eq_of_lt h0 h1, Int.toNat_of_nonneg h0]

lemma castUsize_natCast (n : Nat) (h : n < USIZE_MOD) : castUsize (n : Int) = n := by
  have h0 : (0 : Int) ≤ (n : Int) := Int.natCast_nonneg n
  have h1 : (n : Int) < (USIZE_MOD : Int) := by exact_mod_cast h
  have := castUsize_int_eq (n : Int) h0 h1
  exact_mod_cast this

lemma castUsize_beq_true_iff (i : Int) (n : Nat) (h0 : 0 ≤ i)
    (h1 : i < (USIZE_MOD : Int)) : (castUsize i == n) = true ↔ i = (n : Int) := by
  rw [beq_iff_eq]
  have hcast := castUsize_int_eq i h0 h1
  constructor
  · intro h
    rw [← hcast, h]
  · intro h
    have h2 : (castUsize i : Int) = (n : Int) := by rw [hcast, h]
    exact_mod_cast h2

lemma castUsize_beq_false (i : Int) (n : Nat) (h0 : 0 ≤ i)
    (h1 : i < (USIZE_MOD : Int)) (hne : i ≠ (n : Int)) :
    (castUsize i == n) = false := by
  rw [← Bool.not_eq_true]
  intro h
  exact hne ((castUsize_beq_true_iff i n h0 h1).1 h)

lemma usizeSub1_of_pos (n : Nat) (h1 : 1 ≤ n) (h2 : n < USIZE_MOD) :
    usizeSub1 n = n - 1 := by
  unfold usizeSub1
  have hM : 0 < USIZE_MOD := by unfold USIZE_MOD; omega
  have hrw : n + (USIZE_MOD - 1) = (n - 1) + USIZE_MOD := by omega
  rw [hrw, Nat.add_mod_right, Nat.mod_eq_of_lt (by omega)]

lemma usizeSub1_zero : usizeSub1 0 = USIZE_MOD - 1 := by
  unfold usizeSub1
  rw [Nat.zero_add, Nat.mod_eq_of_lt (by unfold USIZE_MOD; omega)]

/-- Claim C7: `new` always succeeds and produces a message with the given
address, flags, buffer and length and with both cursors and `read_cmd_cnt`
zero; the `Default` message has address 0, empty flags and an empty buffer. -/
theorem new_default_fields (addr flags : Nat) (buf : List Nat) (buf_len : Nat) :
    (I2cMsg.new addr flags buf buf_len).addr = addr ∧
    (I2cMsg.new addr flags buf buf_len).flags = flags ∧
    (I2cMsg.new addr flags buf buf_len).buf = buf ∧
    (I2cMsg.new addr flags buf buf_len).buf_len = buf_len ∧
    (I2cMsg.new addr flags buf buf_len).write_idx = 0 ∧
    (I2cMsg.new addr flags buf buf_len).read_idx = 0 ∧
    (I2cMsg.new addr flags buf buf_len).read_cmd_cnt = 0 ∧
    I2cMsg.default.addr = 0 ∧
    I2cMsg.default.flags = I2cMsgFlags.empty ∧
    I2cMsg.default.buf = [] ∧
    I2cMsg.default.buf_len = 0 ∧
    I2cMsg.default.write_idx = 0 ∧
    I2cMsg.default.read_idx = 0 ∧
    I2cMsg.default.read_cmd_cnt = 0 :=
  ⟨rfl, rfl, rfl, rfl, rfl, rfl, rfl, rfl, rfl, rfl, rfl, rfl, rfl, rfl⟩

/-- Claim C9: a fatal overflow call is atomic.  When `write_byte` is invoked
with `write_end()` holding, or `read_byte` with `read_end()` holding, the
call panics with the message state completely unchanged (the panic carries
exactly the input state: every field and the whole buffer). -/
theorem overflow_panic_atomic (m : I2cMsg) (b : Nat) :
    (m.write_end = true → m.write_byte b = .error m) ∧
    (m.read_end = true → m.read_byte = .error m) := by
  constructor
  · intro h
    unfold I2cMsg.write_byte
    simp [h]
  · intro h
    unfold I2cMsg.read_byte
    simp [h]

/-- Witness for C9 at a concrete full message. -/
theorem overflow_panic_atomic_witness :
    (I2cMsg.new 0 0 [] 0).write_byte 7 = .error (I2cMsg.new 0 0 [] 0) ∧
    (I2cMsg.new 0 0 [] 0).read_byte = .error (I2cMsg.new 0 0 [] 0) :=
  ⟨(overflow_panic_atomic (I2cMsg.new 0 0 [] 0) 7).1 (by decide),
   (overflow_panic_atomic (I2cMsg.new 0 0 [] 0) 7).2 (by decide)⟩

/-- Claim C10: with `buf_len == 0`, `left_last` evaluates the underflowing
`usize` subtraction `buf_len - 1`: in a release build the active cursor is
compared against `2^64 - 1` and the call returns `false`; in a debug build
the subtraction overflow is fatal, so no value is returned. -/
theorem left_last_zero_len (m : I2cMsg) (h0 : m.buf_len = 0)
    (hc0 : 0 ≤ activeCursor m)
    (hc1 : activeCursor m < (USIZE_MOD : Int) - 1) :
    m.left_last = (castUsize (activeCursor m) == USIZE_MOD - 1) ∧
    m.left_last = false ∧
    m.left_last_dbg = none := by
  have hsub : usizeSub1 m.buf_len = USIZE_MOD - 1 := by rw [h0]; exact usizeSub1_zero
  have hform : m.left_last = (castUsize (activeCursor m) == USIZE_MOD - 1) := by
    unfold I2cMsg.left_last activeCursor
    by_cases hR : I2cMsgFlags.contains m.flags I2cMsgFlags.I2cMasterRead = true
    · simp [hR, hsub]
    · simp [hR, hsub]
  refine ⟨hform, ?_, ?_⟩
  · rw [hform]
    apply castUsize_beq_false _ _ hc0 (by omega)
    have : ((USIZE_MOD - 1 : Nat) : Int) = (USIZE_MOD : Int) - 1 := by
      unfold USIZE_MOD
      decide
    omega
  · unfold I2cMsg.left_last_dbg
    simp [h0]

/-- Witness for C10 at the default message. -/
theorem left_last_zero_len_witness :
    I2cMsg.default.left_last =
      (castUsize (activeCursor I2cMsg.default) == USIZE_MOD - 1) ∧
    I2cMsg.default.left_last = false ∧
    I2cMsg.default.left_last_dbg = none :=
  left_last_zero_len I2cMsg.default (by decide) (by decide) (by decide)

/-- A message built by public operations only: `new` with flags
`I2cMasterRead | I2cMasterRecvLen` and `buf_len = 2^64 - 1`, then
`modify_read_cmd_cnt(-1)` (its `debug_assert!`s are satisfied: both flags
are present). -/
def negCntMsg : I2cMsg :=
  (I2cMsg.new 0 (I2cMsgFlags.I2cMasterRead ||| I2cMsgFlags.I2cMasterRecvLen) []
    (USIZE_MOD - 1)).modify_read_cmd_cnt (-1)

/-- Counterexample to claim C5 as stated: on this `MasterRead` message
`read_end()` returns `true` although `read_cmd_cnt ≠ buf_len` — the negative
counter `-1` aliases `buf_len = 2^64 - 1` under the `isize → usize` cast the
source performs before comparing. -/
theorem read_end_neg_cnt_alias :
    negCntMsg.read_end = true ∧ ¬ negCntMsg.read_cmd_cnt = (negCntMsg.buf_len : Int) := by
  constructor
  · decide
  · decide

/-- Claim C5 (amended): over the machine-representable, non-negative counter
and cursor values an adapter can reach, `read_end()` on a `MasterRead`
message is `true` iff `read_cmd_cnt == buf_len`, on a non-`MasterRead`
message iff `read_idx == buf_len`, and `write_end()` is `true` iff
`write_idx == buf_len`.  (Without the non-negativity bound the first
equivalence fails, see `negCntMsg`.) -/
theorem read_write_end_iff (m : I2cMsg) (hbl : m.buf_len < USIZE_MOD)
    (hrc0 : 0 ≤ m.read_cmd_cnt) (hrc1 : m.read_cmd_cnt < (USIZE_MOD : Int))
    (hri0 : 0 ≤ m.read_idx) (hri1 : m.read_idx < (USIZE_MOD : Int))
    (hwi0 : 0 ≤ m.write_idx) (hwi1 : m.write_idx < (USIZE_MOD : Int)) :
    (I2cMsgFlags.contains m.flags I2cMsgFlags.I2cMasterRead = true →
      (m.read_end = true ↔ m.read_cmd_cnt = (m.buf_len : Int))) ∧
    (I2cMsgFlags.contains m.flags I2cMsgFlags.I2cMasterRead = false →
      (m.read_end = true ↔ m.read_idx = (m.buf_len : Int))) ∧
    (m.write_end = true ↔ m.write_idx = (m.buf_len : Int)) := by
  refine ⟨?_, ?_, ?_⟩
  · intro hR
    unfold I2cMsg.read_end
    simp only [hR, if_true]
    exact castUsize_beq_true_iff _ _ hrc0 hrc1
  · intro hR
    unfold I2cMsg.read_end
    simp [hR]
    have h2 := castUsize_beq_true_iff m.read_idx m.buf_len hri0 hri1
    rw [beq_iff_eq] at h2
    exact h2
  · unfold I2cMsg.write_end
    exact castUsize_beq_true_iff _ _ hwi0 hwi1

/-- Witness for the amended C5 at a concrete message. -/
theorem read_write_end_iff_witness :
    (I2cMsgFlags.contains (I2cMsg.new 7 1 [] 0).flags I2cMsgFlags.I2cMasterRead = true →
      ((I2cMsg.new 7 1 [] 0).read_end = true ↔
        (I2cMsg.new 7 1 [] 0).read_cmd_cnt = ((I2cMsg.new 7 1 [] 0).buf_len : Int))) ∧
    (I2cMsgFlags.contains (I2cMsg.new 7 1 [] 0).flags I2cMsgFlags.I2cMasterRead = false →
      ((I2cMsg.new 7 1 [] 0).read_end = true ↔
        (I2cMsg.new 7 1 [] 0).read_idx = ((I2cMsg.new 7 1 [] 0).buf_len : Int))) ∧
    ((I2cMsg.new 7 1 [] 0).write_end = true ↔
      (I2cMsg.new 7 1 [] 0).write_idx = ((I2cMsg.new 7 1 [] 0).buf_len : Int)) :=
  read_write_end_iff (I2cMsg.new 7 1 [] 0) (by decide) (by decide) (by decide)
    (by decide) (by decide) (by decide) (by decide)

/-- Claim C6: over the cursor values an adapter can reach (non-negative,
below `2^64 - 1`), `left_last()` returns `true` iff the active cursor
(`write_idx` under `MasterRead`, `read_idx` otherwise) equals `buf_len - 1`,
including when `buf_len = 0` (release semantics: the wrapped comparison
against `2^64 - 1` is then always false, matching the fact that no
non-negative cursor equals `-1`). -/
theorem left_last_iff (m : I2cMsg) (hbl : m.buf_len < USIZE_MOD)
    (hw0 : 0 ≤ m.write_idx) (hw1 : m.write_idx < (USIZE_MOD : Int) - 1)
    (hr0 : 0 ≤ m.read_idx) (hr1 : m.read_idx < (USIZE_MOD : Int) - 1) :
    m.left_last = true ↔ activeCursor m = (m.buf_len : Int) - 1 := by
  have hMbig : 2 ≤ USIZE_MOD := by unfold USIZE_MOD; omega
  have key : ∀ (i : Int), 0 ≤ i → i < (USIZE_MOD : Int) - 1 →
      ((castUsize i == usizeSub1 m.buf_len) = true ↔ i = (m.buf_len : Int) - 1) := by
    intro i hi0 hi1
    rcases Nat.eq_zero_or_pos m.buf_len with hz | hp
    · rw [hz, usizeSub1_zero]
      constructor
      · intro h
        have h2 := (castUsize_beq_true_iff i (USIZE_MOD - 1) hi0 (by omega)).1 h
        exfalso
        omega
      · intro h
        exfalso
        omega
    · rw [usizeSub1_of_pos m.buf_len hp hbl]
      rw [castUsize_beq_true_iff i (m.buf_len - 1) hi0 (by omega)]
      omega
  unfold I2cMsg.left_last activeCursor
  by_cases hR : I2cMsgFlags.contains m.flags I2cMsgFlags.I2cMasterRead = true
  · simp only [hR, if_true]
    exact key m.write_idx hw0 hw1
  · simp only [hR, if_false]
    exact key m.read_idx hr0 hr1

/-- Witness for C6 at a concrete message with `buf_len = 2`. -/
theorem left_last_iff_witness :
    (I2cMsg.new 0x50 1 [0, 0] 2).left_last = true ↔
      activeCursor (I2cMsg.new 0x50 1 [0, 0] 2) =
        ((I2cMsg.new 0x50 1 [0, 0] 2).buf_len : Int) - 1 :=
  left_last_iff (I2cMsg.new 0x50 1 [0, 0] 2) (by decide) (by decide) (by decide)
    (by decide) (by decide)

/-- Main write lemma: from any state whose write cursor plus the number of
bytes to write fits both inside `buf_len` (so no panic fires) and inside the
physical buffer, `writeAll` succeeds, splices the bytes into the buffer at
the cursor and advances the cursor by the number of bytes. -/
lemma writeAll_ok_general (bs : List Nat) : ∀ (m : I2cMsg),
    0 ≤ m.write_idx →
    m.write_idx + bs.length ≤ (m.buf_len : Int) →
    m.buf_len < USIZE_MOD →
    m.write_idx.toNat + bs.length ≤ m.buf.length →
    m.writeAll bs = .ok { m with
      buf := m.buf.take m.write_idx.toNat ++
             (bs ++ m.buf.drop (m.write_idx.toNat + bs.length)),
      write_idx := m.write_idx + bs.length } := by
  induction bs with
  | nil =>
    intro m h0 hle hbl hbuf
    simp [I2cMsg.writeAll]
  | cons b rest ih =>
    intro m h0 hle hbl hbuf
    obtain ⟨ad, fl, bu, bl, wi, ri, rc⟩ := m
    dsimp only at h0 hle hbl hbuf ⊢
    simp only [List.length_cons] at hle hbuf
    have hlt : wi < (bl : Int) := by
      push_cast at hle
      omega
    have hend : I2cMsg.write_end ⟨ad, fl, bu, bl, wi, ri, rc⟩ = false := by
      unfold I2cMsg.write_end
      exact castUsize_beq_false wi bl h0 (by omega) (by omega)
    have hstep : I2cMsg.write_byte ⟨ad, fl, bu, bl, wi, ri, rc⟩ b =
        .ok ⟨ad, fl, bu.set wi.toNat b, bl, wi + 1, ri, rc⟩ := by
      unfold I2cMsg.write_byte
      rw [hend]
      rfl
    have htn : (wi + 1).toNat = wi.toNat + 1 := by omega
    have hib : wi.toNat < bu.length := by omega
    have ihm := ih ⟨ad, fl, bu.set wi.toNat b, bl, wi + 1, ri, rc⟩
      (by dsimp only; omega)
      (by dsimp only; omega)
      (by dsimp only; omega)
      (by dsimp only; simp only [List.length_set]; omega)
    dsimp only at ihm
    rw [I2cMsg.writeAll, hstep]
    dsimp only
    rw [ihm]
    have hset : bu.set wi.toNat b =
        bu.take wi.toNat ++ b :: bu.drop (wi.toNat + 1) :=
      List.set_eq_take_cons_drop b hib
    have hlen_take : (bu.take wi.toNat).length = wi.toNat := by
      simp [List.length_take]
      omega
    have htake : (bu.set wi.toNat b).take ((wi + 1).toNat) =
        bu.take wi.toNat ++ [b] := by
      rw [htn, hset]
      have h1 : wi.toNat + 1 = (bu.take wi.toNat).length + 1 := by rw [hlen_take]
      rw [h1, List.take_append]
      rfl
    have hdrop : (bu.set wi.toNat b).drop ((wi + 1).toNat + rest.length) =
        bu.drop (wi.toNat + (rest.length + 1)) := by
      rw [htn, hset]
      have h1 : wi.toNat + 1 + rest.length =
          (bu.take wi.toNat).length + (1 + rest.length) := by
        rw [hlen_take]
        omega
      rw [h1, List.drop_append]
      rw [Nat.add_comm 1 rest.length]
      simp only [List.drop_succ_cons]
      rw [List.drop_drop]
      congr 1
      omega
    rw [htake, hdrop]
    have hwi : wi + 1 + (rest.length : Int) = wi + ((rest.length : Nat) + 1 : Nat) := by
      push_cast
      omega
    rw [hwi]
    simp [List.append_assoc]

/-- Main read lemma: from any non-`MasterRead` state whose read cursor plus
the number of calls fits inside `buf_len`, with the physical buffer at least
`buf_len` long, `readN` succeeds, returns the next slice of the buffer and
advances the read cursor by the number of calls. -/
lemma readN_ok_general (n : Nat) : ∀ (m : I2cMsg),
    I2cMsgFlags.contains m.flags I2cMsgFlags.I2cMasterRead = false →
    0 ≤ m.read_idx →
    m.read_idx + n ≤ (m.buf_len : Int) →
    m.buf_len < USIZE_MOD →
    m.buf_len ≤ m.buf.length →
    m.readN n = .ok ((m.buf.drop m.read_idx.toNat).take n,
      { m with read_idx := m.read_idx + n }) := by
  induction n with
  | zero =>
    intro m hR h0 hle hbl hbuf
    simp [I2cMsg.readN]
  | succ k ih =>
    intro m hR h0 hle hbl hbuf
    obtain ⟨ad, fl, bu, bl, wi, ri, rc⟩ := m
    dsimp only at hR h0 hle hbl hbuf ⊢
    have hlt : ri < (bl : Int) := by
      push_cast at hle
      omega
    have hend : I2cMsg.read_end ⟨ad, fl, bu, bl, wi, ri, rc⟩ = false := by
      unfold I2cMsg.read_end
      dsimp only
      rw [if_neg (by simp [hR])]
      exact castUsize_beq_false ri bl h0 (by omega) (by omega)
    have hib : ri.toNat < bu.length := by omega
    have hstep : I2cMsg.read_byte ⟨ad, fl, bu, bl, wi, ri, rc⟩ =
        .ok (bu.getD ri.toNat 0, ⟨ad, fl, bu, bl, wi, ri + 1, rc⟩) := by
      unfold I2cMsg.read_byte
      rw [hend]
      rfl
    have htn : (ri + 1).toNat = ri.toNat + 1 := by omega
    have ihm := ih ⟨ad, fl, bu, bl, wi, ri + 1, rc⟩ hR
      (by dsimp only; omega)
      (by dsimp only; omega)
      (by dsimp only; omega)
      (by dsimp only; omega)
    dsimp only at ihm
    rw [I2cMsg.readN, hstep]
    dsimp only
    rw [ihm]
    have hgetD : bu.getD ri.toNat 0 = bu.get ⟨ri.toNat, hib⟩ := by
      rw [List.getD_eq_getElem?_getD, List.getElem?_eq_getElem hib]
      rfl
    have hdropcons : bu.drop ri.toNat =
        bu.get ⟨ri.toNat, hib⟩ :: bu.drop (ri.toNat + 1) := by
      rw [List.drop_eq_getElem_cons hib]
      rfl
    rw [htn, hgetD]
    have htake : (bu.drop ri.toNat).take (k + 1) =
        bu.get ⟨ri.toNat, hib⟩ :: (bu.drop (ri.toNat + 1)).take k := by
      rw [hdropcons]
      rfl
    rw [htake]
    have hri : ri + 1 + (k : Int) = ri + ((k : Int) + 1) := by omega
    rw [hri]
    push_cast
    rfl

/-- Claim C2: on a fresh message whose flags contain `I2cMasterRead` but not
`I2cMasterRecvLen`, over a buffer of length `buf_len = n`, writing the bytes
`b_1 .. b_n` succeeds and stores them in order at positions `0 .. n`, each
call advancing `write_idx` by one (after the first `k` calls the cursor is
`k` and the first `k` positions hold `b_1 .. b_k`), and one further
`write_byte` call is fatal. -/
theorem write_full_buffer (addr flags : Nat) (buf bs : List Nat) (n b : Nat)
    (hR : I2cMsgFlags.contains flags I2cMsgFlags.I2cMasterRead = true)
    (hRL : I2cMsgFlags.contains flags I2cMsgFlags.I2cMasterRecvLen = false)
    (hbuf : buf.length = n) (hbs : bs.length = n) (hn : n < USIZE_MOD) :
    (∀ k, k ≤ n → (I2cMsg.new addr flags buf n).writeAll (bs.take k) =
      .ok { I2cMsg.new addr flags buf n with
            buf := bs.take k ++ buf.drop k, write_idx := (k : Int) }) ∧
    (I2cMsg.new addr flags buf n).writeAll bs =
      .ok { I2cMsg.new addr flags buf n with buf := bs, write_idx := (n : Int) } ∧
    ({ I2cMsg.new addr flags buf n with
       buf := bs, write_idx := (n : Int) }).write_byte b =
      .error { I2cMsg.new addr flags buf n with buf := bs, write_idx := (n : Int) } := by
  have P1 : ∀ k, k ≤ n → (I2cMsg.new addr flags buf n).writeAll (bs.take k) =
      .ok { I2cMsg.new addr flags buf n with
            buf := bs.take k ++ buf.drop k, write_idx := (k : Int) } := by
    intro k hk
    have h := writeAll_ok_general (bs.take k) (I2cMsg.new addr flags buf n)
      (by simp [I2cMsg.new])
      (by simp [I2cMsg.new, List.length_take, hbs])
      hn
      (by simp [I2cMsg.new, List.length_take, hbs, hbuf])
    simpa [I2cMsg.new, List.length_take, hbs, Nat.min_eq_left hk] using h
  have P2 : (I2cMsg.new addr flags buf n).writeAll bs =
      .ok { I2cMsg.new addr flags buf n with buf := bs, write_idx := (n : Int) } := by
    have h := P1 n (Nat.le_refl n)
    have htake : bs.take n = bs := by
      rw [← hbs]
      exact List.take_length bs
    have hdrop : buf.drop n = [] := by
      rw [← hbuf]
      exact List.drop_length buf
    rw [htake, hdrop, List.append_nil] at h
    exact h
  have P3 : ({ I2cMsg.new addr flags buf n with
      buf := bs, write_idx := (n : Int) }).write_byte b =
      .error { I2cMsg.new addr flags buf n with buf := bs, write_idx := (n : Int) } := by
    have hend : ({ I2cMsg.new addr flags buf n with
        buf := bs, write_idx := (n : Int) }).write_end = true := by
      unfold I2cMsg.write_end
      dsimp only [I2cMsg.new]
      rw [castUsize_natCast n hn]
      simp
    unfold I2cMsg.write_byte
    rw [hend]
    rfl
  exact ⟨P1, P2, P3⟩

/-- Witness for C2: scenario A of the spec, a 4-byte `MasterRead` message
filled with `[1,2,3,4]`, a fifth write is fatal. -/
theorem write_full_buffer_witness :
    (∀ k, k ≤ 4 → (I2cMsg.new 0x50 1 [0, 0, 0, 0] 4).writeAll ([1, 2, 3, 4].take k) =
      .ok { I2cMsg.new 0x50 1 [0, 0, 0, 0] 4 with
            buf := [1, 2, 3, 4].take k ++ [0, 0, 0, 0].drop k,
            write_idx := (k : Int) }) ∧
    (I2cMsg.new 0x50 1 [0, 0, 0, 0] 4).writeAll [1, 2, 3, 4] =
      .ok { I2cMsg.new 0x50 1 [0, 0, 0, 0] 4 with
            buf := [1, 2, 3, 4], write_idx := ((4 : Nat) : Int) } ∧
    ({ I2cMsg.new 0x50 1 [0, 0, 0, 0] 4 with
       buf := [1, 2, 3, 4], write_idx := ((4 : Nat) : Int) }).write_byte 9 =
      .error { I2cMsg.new 0x50 1 [0, 0, 0, 0] 4 with
               buf := [1, 2, 3, 4], write_idx := ((4 : Nat) : Int) } :=
  write_full_buffer 0x50 1 [0, 0, 0, 0] [1, 2, 3, 4] 4 9 (by decide) (by decide)
    (by decide) (by decide) (by decide)

/-- Claim C3: on a fresh message whose flags do not contain `I2cMasterRead`,
over a buffer of length `buf_len = n`, `read_byte()` called `n` times
returns the buffer's bytes in order (position 0 first), each call advancing
`read_idx` by one (after `k` calls the cursor is `k` and the bytes returned
so far are the first `k` buffer bytes), and the `(n+1)`-th call is fatal. -/
theorem read_full_buffer (addr flags : Nat) (buf : List Nat) (n : Nat)
    (hR : I2cMsgFlags.contains flags I2cMsgFlags.I2cMasterRead = false)
    (hbuf : buf.length = n) (hn : n < USIZE_MOD) :
    (∀ k, k ≤ n → (I2cMsg.new addr flags buf n).readN k =
      .ok (buf.take k,
        { I2cMsg.new addr flags buf n with read_idx := (k : Int) })) ∧
    (I2cMsg.new addr flags buf n).readN n =
      .ok (buf, { I2cMsg.new addr flags buf n with read_idx := (n : Int) }) ∧
    ({ I2cMsg.new addr flags buf n with read_idx := (n : Int) }).read_byte =
      .error { I2cMsg.new addr flags buf n with read_idx := (n : Int) } := by
  have P1 : ∀ k, k ≤ n → (I2cMsg.new addr flags buf n).readN k =
      .ok (buf.take k,
        { I2cMsg.new addr flags buf n with read_idx := (k : Int) }) := by
    intro k hk
    have h := readN_ok_general k (I2cMsg.new addr flags buf n)
      (by simpa [I2cMsg.new] using hR)
      (by simp [I2cMsg.new])
      (by simp [I2cMsg.new]; omega)
      hn
      (by simp [I2cMsg.new, hbuf])
    simpa [I2cMsg.new] using h
  have P2 : (I2cMsg.new addr flags buf n).readN n =
      .ok (buf, { I2cMsg.new addr flags buf n with read_idx := (n : Int) }) := by
    have h := P1 n (Nat.le_refl n)
    have htake : buf.take n = buf := by
      rw [← hbuf]
      exact List.take_length buf
    rw [htake] at h
    exact h
  have P3 : ({ I2cMsg.new addr flags buf n with read_idx := (n : Int) }).read_byte =
      .error { I2cMsg.new addr flags buf n with read_idx := (n : Int) } := by
    have hend : ({ I2cMsg.new addr flags buf n with
        read_idx := (n : Int) }).read_end = true := by
      unfold I2cMsg.read_end
      dsimp only [I2cMsg.new]
      rw [if_neg (by simp [hR])]
      rw [castUsize_natCast n hn]
      simp
    unfold I2cMsg.read_byte
    rw [hend]
    rfl
  exact ⟨P1, P2, P3⟩

/-- Witness for C3: scenario B of the spec, a write-direction message over
`[9,8,7]`; three reads return `9,8,7`, a fourth is fatal. -/
theorem read_full_buffer_witness :
    (∀ k, k ≤ 3 → (I2cMsg.new 0x50 0 [9, 8, 7] 3).readN k =
      .ok ([9, 8, 7].take k,
        { I2cMsg.new 0x50 0 [9, 8, 7] 3 with read_idx := (k : Int) })) ∧
    (I2cMsg.new 0x50 0 [9, 8, 7] 3).readN 3 =
      .ok ([9, 8, 7],
        { I2cMsg.new 0x50 0 [9, 8, 7] 3 with read_idx := ((3 : Nat) : Int) }) ∧
    ({ I2cMsg.new 0x50 0 [9, 8, 7] 3 with
       read_idx := ((3 : Nat) : Int) }).read_byte =
      .error { I2cMsg.new 0x50 0 [9, 8, 7] 3 with read_idx := ((3 : Nat) : Int) } :=
  read_full_buffer 0x50 0 [9, 8, 7] 3 (by decide) (by decide) (by decide)

/-- Claim C4: scenario C of the spec.  A message constructed with flags
`I2cMasterRead | I2cMasterRecvLen` over a buffer of logical length 1, after
`modify_buf_len(3)`, has logical length 3; three `write_byte` calls then
succeed, storing at positions 0, 1, 2, and a fourth call is fatal. -/
theorem recv_len_resize_write (b1 b2 b3 b4 : Nat) (buf : List Nat)
    (h3 : 3 ≤ buf.length) :
    ((I2cMsg.new 0x50 (I2cMsgFlags.I2cMasterRead ||| I2cMsgFlags.I2cMasterRecvLen)
        buf 1).modify_buf_len 3).buf_len = 3 ∧
    ((I2cMsg.new 0x50 (I2cMsgFlags.I2cMasterRead ||| I2cMsgFlags.I2cMasterRecvLen)
        buf 1).modify_buf_len 3).writeAll [b1, b2, b3] =
      .ok { (I2cMsg.new 0x50 (I2cMsgFlags.I2cMasterRead ||| I2cMsgFlags.I2cMasterRecvLen)
              buf 1).modify_buf_len 3 with
            buf := b1 :: b2 :: b3 :: buf.drop 3, write_idx := ((3 : Nat) : Int) } ∧
    ({ (I2cMsg.new 0x50 (I2cMsgFlags.I2cMasterRead ||| I2cMsgFlags.I2cMasterRecvLen)
          buf 1).modify_buf_len 3 with
       buf := b1 :: b2 :: b3 :: buf.drop 3,
       write_idx := ((3 : Nat) : Int) }).write_byte b4 =
      .error { (I2cMsg.new 0x50 (I2cMsgFlags.I2cMasterRead ||| I2cMsgFlags.I2cMasterRecvLen)
                  buf 1).modify_buf_len 3 with
               buf := b1 :: b2 :: b3 :: buf.drop 3,
               write_idx := ((3 : Nat) : Int) } := by
  refine ⟨rfl, ?_, ?_⟩
  · have h := writeAll_ok_general [b1, b2, b3]
      ((I2cMsg.new 0x50 (I2cMsgFlags.I2cMasterRead ||| I2cMsgFlags.I2cMasterRecvLen)
          buf 1).modify_buf_len 3)
      (by simp [I2cMsg.new, I2cMsg.modify_buf_len])
      (by simp [I2cMsg.new, I2cMsg.modify_buf_len])
      (by simp [I2cMsg.new, I2cMsg.modify_buf_len]; unfold USIZE_MOD; omega)
      (by simpa [I2cMsg.new, I2cMsg.modify_buf_len] using h3)
    simpa [I2cMsg.new, I2cMsg.modify_buf_len] using h
  · have hend : ({ (I2cMsg.new 0x50
        (I2cMsgFlags.I2cMasterRead ||| I2cMsgFlags.I2cMasterRecvLen)
          buf 1).modify_buf_len 3 with
        buf := b1 :: b2 :: b3 :: buf.drop 3,
        write_idx := ((3 : Nat) : Int) }).write_end = true := by
      unfold I2cMsg.write_end
      dsimp only [I2cMsg.new, I2cMsg.modify_buf_len]
      rw [castUsize_natCast 3 (by unfold USIZE_MOD; omega)]
      simp
    unfold I2cMsg.write_byte
    rw [hend]
    rfl

/-- Witness for C4 over the physical buffer `[0,0,0]` and bytes `1,2,3`. -/
theorem recv_len_resize_write_witness :
    ((I2cMsg.new 0x50 (I2cMsgFlags.I2cMasterRead ||| I2cMsgFlags.I2cMasterRecvLen)
        [0, 0, 0] 1).modify_buf_len 3).buf_len = 3 ∧
    ((I2cMsg.new 0x50 (I2cMsgFlags.I2cMasterRead ||| I2cMsgFlags.I2cMasterRecvLen)
        [0, 0, 0] 1).modify_buf_len 3).writeAll [1, 2, 3] =
      .ok { (I2cMsg.new 0x50 (I2cMsgFlags.I2cMasterRead ||| I2cMsgFlags.I2cMasterRecvLen)
              [0, 0, 0] 1).modify_buf_len 3 with
            buf := 1 :: 2 :: 3 :: List.drop 3 [0, 0, 0],
            write_idx := ((3 : Nat) : Int) } ∧
    ({ (I2cMsg.new 0x50 (I2cMsgFlags.I2cMasterRead ||| I2cMsgFlags.I2cMasterRecvLen)
          [0, 0, 0] 1).modify_buf_len 3 with
       buf := 1 :: 2 :: 3 :: List.drop 3 [0, 0, 0],
       write_idx := ((3 : Nat) : Int) }).write_byte 4 =
      .error { (I2cMsg.new 0x50 (I2cMsgFlags.I2cMasterRead ||| I2cMsgFlags.I2cMasterRecvLen)
                  [0, 0, 0] 1).modify_buf_len 3 with
               buf := 1 :: 2 :: 3 :: List.drop 3 [0, 0, 0],
               write_idx := ((3 : Nat) : Int) } :=
  recv_len_resize_write 1 2 3 4 [0, 0, 0] (by decide)

/-- A state built by public operations only: `new` with flags
`I2cMasterRead | I2cMasterRecvLen` over a two-byte buffer, then one
successful `write_byte` (so `write_idx = 1`). -/
def shrunkPre : I2cMsg :=
  wbState ((I2cMsg.new 0
    (I2cMsgFlags.I2cMasterRead ||| I2cMsgFlags.I2cMasterRecvLen) [0, 0] 2).write_byte 5)

/-- Counterexample to claim C1 as stated: the cursor-bounds invariant holds
at `shrunkPre`, but the public operation `modify_buf_len(0)` (whose
`debug_assert!` on `I2cMasterRecvLen` is satisfied) does not preserve it:
afterwards `write_idx = 1 > buf_len = 0`. -/
theorem cursor_inv_not_preserved_by_shrink :
    cursorInv shrunkPre ∧ ¬ cursorInv (shrunkPre.modify_buf_len 0) := by
  constructor
  · decide
  · decide

/-- Claim C1 (amended): the cursor-bounds invariant
`0 ≤ write_idx ≤ buf_len ∧ 0 ≤ read_idx ≤ buf_len` is established by
`new` and `Default` and preserved by `write_byte`, by `read_byte` on its
documented domain (messages without `MasterRead`), by `inc_read_cmd_cnt`,
`modify_read_cmd_cnt` and `remove_flag`, and by `modify_buf_len` when the
new length is at least both cursors (shrinking below a cursor violates it,
see `shrunkPre`); and in any invariant state a cursor increment past
`buf_len` is a fatal panic, never a silent wrap. -/
theorem cursor_inv_preservation :
    (∀ (addr flags : Nat) (buf : List Nat) (buf_len : Nat),
      cursorInv (I2cMsg.new addr flags buf buf_len)) ∧
    cursorInv I2cMsg.default ∧
    (∀ (m : I2cMsg) (b : Nat), cursorInv m → m.buf_len < USIZE_MOD →
      cursorInv (wbState (m.write_byte b))) ∧
    (∀ (m : I2cMsg), cursorInv m → m.buf_len < USIZE_MOD →
      I2cMsgFlags.contains m.flags I2cMsgFlags.I2cMasterRead = false →
      cursorInv (rbState m.read_byte)) ∧
    (∀ (m : I2cMsg), cursorInv m → cursorInv m.inc_read_cmd_cnt) ∧
    (∀ (m : I2cMsg) (c : Int), cursorInv m → cursorInv (m.modify_read_cmd_cnt c)) ∧
    (∀ (m : I2cMsg) (f : Nat), cursorInv m → cursorInv (m.remove_flag f)) ∧
    (∀ (m : I2cMsg) (n : Nat), cursorInv m →
      m.write_idx ≤ (n : Int) → m.read_idx ≤ (n : Int) →
      cursorInv (m.modify_buf_len n)) ∧
    (∀ (m : I2cMsg) (b : Nat), cursorInv m → m.buf_len < USIZE_MOD →
      m.write_idx = (m.buf_len : Int) → m.write_byte b = .error m) ∧
    (∀ (m : I2cMsg), cursorInv m → m.buf_len < USIZE_MOD →
      I2cMsgFlags.contains m.flags I2cMsgFlags.I2cMasterRead = false →
      m.read_idx = (m.buf_len : Int) → m.read_byte = .error m) := by
  have wend_true : ∀ (m : I2cMsg), 0 ≤ m.write_idx → m.buf_len < USIZE_MOD →
      m.write_idx = (m.buf_len : Int) → m.write_end = true := by
    intro m h0 hbl he
    unfold I2cMsg.write_end
    rw [castUsize_beq_true_iff m.write_idx m.buf_len h0 (by omega)]
    exact he
  have rend_true : ∀ (m : I2cMsg), 0 ≤ m.read_idx → m.buf_len < USIZE_MOD →
      I2cMsgFlags.contains m.flags I2cMsgFlags.I2cMasterRead = false →
      m.read_idx = (m.buf_len : Int) → m.read_end = true := by
    intro m h0 hbl hR he
    unfold I2cMsg.read_end
    rw [if_neg (by simp [hR])]
    rw [castUsize_beq_true_iff m.read_idx m.buf_len h0 (by omega)]
    exact he
  refine ⟨?_, ?_, ?_, ?_, ?_, ?_, ?_, ?_, ?_, ?_⟩
  · intro addr flags buf buf_len
    unfold cursorInv I2cMsg.new
    refine ⟨le_refl 0, Int.natCast_nonneg buf_len, le_refl 0, Int.natCast_nonneg buf_len⟩
  · decide
  · intro m b hInv hbl
    obtain ⟨h1, h2, h3, h4⟩ := hInv
    by_cases h : m.write_end = true
    · unfold I2cMsg.write_byte
      rw [h]
      show cursorInv m
      exact ⟨h1, h2, h3, h4⟩
    · have hne : m.write_idx ≠ (m.buf_len : Int) := by
        intro he
        exact h (wend_true m h1 hbl he)
      unfold I2cMsg.write_byte
      rw [Bool.not_eq_true] at h
      rw [h]
      show cursorInv { m with buf := m.buf.set m.write_idx.toNat b,
                              write_idx := m.write_idx + 1 }
      unfold cursorInv
      dsimp only
      refine ⟨by omega, by omega, h3, h4⟩
  · intro m hInv hbl hR
    obtain ⟨h1, h2, h3, h4⟩ := hInv
    by_cases h : m.read_end = true
    · unfold I2cMsg.read_byte
      rw [h]
      show cursorInv m
      exact ⟨h1, h2, h3, h4⟩
    · have hne : m.read_idx ≠ (m.buf_len : Int) := by
        intro he
        exact h (rend_true m h3 hbl hR he)
      unfold I2cMsg.read_byte
      rw [Bool.not_eq_true] at h
      rw [h]
      show cursorInv { m with read_idx := m.read_idx + 1 }
      unfold cursorInv
      dsimp only
      refine ⟨h1, h2, by omega, by omega⟩
  · intro m hInv
    exact hInv
  · intro m c hInv
    exact hInv
  · intro m f hInv
    exact hInv
  · intro m n hInv hw hr
    obtain ⟨h1, h2, h3, h4⟩ := hInv
    exact ⟨h1, hw, h3, hr⟩
  · intro m b hInv hbl he
    obtain ⟨h1, h2, h3, h4⟩ := hInv
    unfold I2cMsg.write_byte
    rw [wend_true m h1 hbl he]
    rfl
  · intro m hInv hbl hR he
    obtain ⟨h1, h2, h3, h4⟩ := hInv
    unfold I2cMsg.read_byte
    rw [rend_true m h3 hbl hR he]
    rfl

/-- Witness for the amended C1: a successful write on a fresh one-byte read
message preserves the invariant, and the next write on the full message is
the fatal panic. -/
theorem cursor_inv_preservation_witness :
    cursorInv (wbState ((I2cMsg.new 0 1 [0] 1).write_byte 9)) ∧
    (wbState ((I2cMsg.new 0 1 [0] 1).write_byte 9)).write_byte 9 =
      .error (wbState ((I2cMsg.new 0 1 [0] 1).write_byte 9)) :=
  ⟨cursor_inv_preservation.2.2.1 (I2cMsg.new 0 1 [0] 1) 9 (by decide) (by decide),
   (cursor_inv_preservation.2.2.2.2.2.2.2.2.1)
     (wbState ((I2cMsg.new 0 1 [0] 1).write_byte 9)) 9 (by decide) (by decide) (by decide)⟩

lemma remove_eq_ldiff (F f : Nat) (hF : F < 65536) :
    I2cMsgFlags.remove F f = Nat.ldiff F f := by
  apply Nat.eq_of_testBit_eq
  intro i
  unfold I2cMsgFlags.remove
  rw [Nat.testBit_and, Nat.testBit_xor, Nat.testBit_ldiff]
  by_cases hi : i < 16
  · have h16 : Nat.testBit 0xFFFF i = true := by
      have he : (0xFFFF : Nat) = 2 ^ 16 - 1 := by norm_num
      rw [he, Nat.testBit_two_pow_sub_one]
      simpa using hi
    rw [h16]
    cases Nat.testBit F i <;> cases Nat.testBit f i <;> rfl
  · have hFi : Nat.testBit F i = false := by
      apply Nat.testBit_lt_two_pow
      calc F < 65536 := hF
        _ = 2 ^ 16 := by norm_num
        _ ≤ 2 ^ i := Nat.pow_le_pow_right (by omega) (by omega)
    rw [hFi]
    rfl

lemma ldiff_lt_two_pow_16 (F a : Nat) (hF : F < 65536) :
    Nat.ldiff F a < 65536 := by
  have h : (65536 : Nat) = 2 ^ 16 := by norm_num
  rw [h] at hF ⊢
  apply Nat.lt_pow_two_of_testBit
  intro i hi
  rw [Nat.testBit_ldiff]
  have hFi : Nat.testBit F i = false :=
    Nat.testBit_lt_two_pow (lt_of_lt_of_le hF (Nat.pow_le_pow_right (by omega) hi))
  rw [hFi]
  rfl

lemma ldiff_ldiff (F a b : Nat) :
    Nat.ldiff (Nat.ldiff F a) b = Nat.ldiff F (a ||| b) := by
  apply Nat.eq_of_testBit_eq
  intro i
  rw [Nat.testBit_ldiff, Nat.testBit_ldiff, Nat.testBit_ldiff, Nat.testBit_or]
  cases Nat.testBit F i <;> cases Nat.testBit a i <;> cases Nat.testBit b i <;> rfl

lemma ldiff_zero_right (F : Nat) : Nat.ldiff F 0 = F := by
  apply Nat.eq_of_testBit_eq
  intro i
  rw [Nat.testBit_ldiff]
  simp

lemma foldl_lor_init (rs : List Nat) : ∀ (a : Nat),
    List.foldl (· ||| ·) a rs = a ||| List.foldl (· ||| ·) 0 rs := by
  induction rs with
  | nil =>
    intro a
    simp
  | cons r rs ih =>
    intro a
    rw [List.foldl_cons, List.foldl_cons, ih (a ||| r), ih (0 ||| r)]
    rw [Nat.zero_or, Nat.or_assoc]

lemma foldl_remove_flag_flags (rs : List Nat) : ∀ (m : I2cMsg), m.flags < 65536 →
    (List.foldl I2cMsg.remove_flag m rs).flags =
      Nat.ldiff m.flags (List.foldl (· ||| ·) 0 rs) := by
  induction rs with
  | nil =>
    intro m hm
    simp [ldiff_zero_right]
  | cons r rs ih =>
    intro m hm
    rw [List.foldl_cons, List.foldl_cons]
    have hflags : (m.remove_flag r).flags = Nat.ldiff m.flags r := by
      unfold I2cMsg.remove_flag
      dsimp only
      exact remove_eq_ldiff m.flags r hm
    have hlt : (m.remove_flag r).flags < 65536 := by
      rw [hflags]
      exact ldiff_lt_two_pow_16 m.flags r hm
    rw [ih (m.remove_flag r) hlt, hflags, ldiff_ldiff]
    rw [foldl_lor_init rs (0 ||| r), Nat.zero_or]

/-- A message whose flag set is exactly `I2cMasterStop`. -/
def stopOnlyMsg : I2cMsg := I2cMsg.new 0 I2cMsgFlags.I2cMasterStop [] 0

/-- Counterexample to claim C8 as stated: the multi-bit flag `I2cClientSccb =
I2cMasterStop | I2cMasterIgnNak` is absent from `stopOnlyMsg`
(`contains` is false), yet `remove_flag(I2cClientSccb)` is not a no-op — it
clears the `I2cMasterStop` bit the two share. -/
theorem remove_absent_flag_not_noop :
    I2cMsgFlags.contains stopOnlyMsg.flags I2cMsgFlags.I2cClientSccb = false ∧
    ¬ (stopOnlyMsg.remove_flag I2cMsgFlags.I2cClientSccb).flags = stopOnlyMsg.flags := by
  constructor
  · decide
  · decide

/-- Claim C8 (amended): `remove_flag(f)` clears exactly the bits of `f` and
no others (bitwise set difference); removing a flag *disjoint from* the
current set is a no-op (an "absent" multi-bit flag may still share bits and
clear them, see `stopOnlyMsg`); and after any sequence of removals from
construction, `flags().contains(g)` is the containment test against the
constructed flag word minus the union of all bits removed so far. -/
theorem remove_flag_semantics (addr F f g : Nat) (buf : List Nat) (n : Nat)
    (rs : List Nat) (hF : F < 65536) :
    (∀ i, ((I2cMsg.new addr F buf n).remove_flag f).flags.testBit i =
      (F.testBit i && !(f.testBit i))) ∧
    (F &&& f = 0 →
      (I2cMsg.new addr F buf n).remove_flag f = I2cMsg.new addr F buf n) ∧
    (I2cMsgFlags.contains
        (List.foldl I2cMsg.remove_flag (I2cMsg.new addr F buf n) rs).flags g =
      I2cMsgFlags.contains (Nat.ldiff F (List.foldl (· ||| ·) 0 rs)) g) := by
  have hflags : ((I2cMsg.new addr F buf n).remove_flag f).flags = Nat.ldiff F f := by
    unfold I2cMsg.remove_flag I2cMsg.new
    dsimp only
    exact remove_eq_ldiff F f hF
  refine ⟨?_, ?_, ?_⟩
  · intro i
    rw [hflags, Nat.testBit_ldiff]
  · intro hd
    have hdisj : ∀ i, (F.testBit i && f.testBit i) = false := by
      intro i
      have h := congrArg (fun x => Nat.testBit x i) hd
      simp only [Nat.testBit_and, Nat.zero_testBit] at h
      exact h
    have hrm : I2cMsgFlags.remove F f = F := by
      rw [remove_eq_ldiff F f hF]
      apply Nat.eq_of_testBit_eq
      intro i
      rw [Nat.testBit_ldiff]
      have h := hdisj i
      cases hfi : Nat.testBit f i <;> cases hFi : Nat.testBit F i <;> simp_all
    unfold I2cMsg.remove_flag I2cMsg.new
    dsimp only
    rw [hrm]
  · rw [foldl_remove_flag_flags rs (I2cMsg.new addr F buf n) hF]
    rfl

/-- Witness for the amended C8: flag word `MasterStop | MasterRead`, removing
`MasterStop` (disjointness instantiated trivially), then querying
`MasterRead` after removing `[MasterStop]`. -/
theorem remove_flag_semantics_witness :
    (∀ i, ((I2cMsg.new 0 0x8001 [] 0).remove_flag 0x8000).flags.testBit i =
      ((0x8001 : Nat).testBit i && !((0x8000 : Nat).testBit i))) ∧
    ((0x8001 : Nat) &&& 0x8000 = 0 →
      (I2cMsg.new 0 0x8001 [] 0).remove_flag 0x8000 = I2cMsg.new 0 0x8001 [] 0) ∧
    (I2cMsgFlags.contains
        (List.foldl I2cMsg.remove_flag (I2cMsg.new 0 0x8001 [] 0) [0x8000]).flags 1 =
      I2cMsgFlags.contains (Nat.ldiff 0x8001 (List.foldl (· ||| ·) 0 [0x8000])) 1) :=
  remove_flag_semantics 0 0x8001 0x8000 1 [] 0 [0x8000] (by decide)

end I2cCommon
